import Mathlib

/-!
# mocker: logging core and configuration registry

A shallow embedding of `mocker/log.h` and `mocker/config.h`.

* `std::string` is a Lean `String` (its list of characters); `::tolower` is the
  "C"-locale fold of the letters `A`..`Z`.
* A `std::shared_ptr` is an address (`Ptr`) into an explicit list of allocated objects.
* Functions that the headers only declare (their bodies are in `log.cpp`) are modelled from
  the specification and say so in their doc comment.
-/

namespace mocker

/-! ## Severity (`LogLevel`, log.h:30-44) -/

/-- The enumeration `LogLevel::Level` (log.h:32-40). -/
inductive Level where
  | UNKNOWN
  | DEBUG
  | INFO
  | WARN
  | ERROR
  | FATAL
  | REMOVED
  deriving DecidableEq

/-- The enumerator values written in the header: the integer a `Level` converts to when two
levels are compared with `<` or `>=`. -/
def Level.toNat : Level → Nat
  | .UNKNOWN => 0
  | .DEBUG => 1
  | .INFO => 2
  | .WARN => 3
  | .ERROR => 4
  | .FATAL => 5
  | .REMOVED => 100

/-- Comparison `a < b` of two unscoped enumerators: comparison of their values. -/
instance : LT Level := ⟨fun a b => a.toNat < b.toNat⟩

/-- Comparison `a <= b` of two unscoped enumerators: comparison of their values. -/
instance : LE Level := ⟨fun a b => a.toNat ≤ b.toNat⟩

instance (a b : Level) : Decidable (a < b) := inferInstanceAs (Decidable (a.toNat < b.toNat))

instance (a b : Level) : Decidable (a ≤ b) := inferInstanceAs (Decidable (a.toNat ≤ b.toNat))

/-- Modelled from the spec: the body of `LogLevel::FromString` (declared at log.h:43, defined
in log.cpp). Spec 4.1: "case-sensitive exact match against the
canonical spellings DEBUG/INFO/WARN/ERROR/FATAL; anything else, including empty input, yields
UNKNOWN. No exceptions." -/
def LogLevel.FromString (str : String) : Level :=
  if str = "DEBUG" then .DEBUG
  else if str = "INFO" then .INFO
  else if str = "WARN" then .WARN
  else if str = "ERROR" then .ERROR
  else if str = "FATAL" then .FATAL
  else .UNKNOWN

/-! ## Events (`LogEvent`, log.h:47-80) -/

/-- The fields of `LogEvent` (log.h:70-79). The `std::stringstream m_ss` is represented by the
characters written to it so far, which is what `m_ss.str()` returns. -/
structure LogEvent where
  m_file : String
  m_line : Int
  m_elapse : Nat
  m_threadId : Nat
  m_threadName : String
  m_coroutineId : Nat
  m_time : Nat
  m_ss : String
  m_logger_real_name : String
  deriving DecidableEq

/-- Accessor `LogEvent::getFile` (log.h:56). -/
def LogEvent.getFile (e : LogEvent) : String := e.m_file

/-- Accessor `LogEvent::getLine` (log.h:57). -/
def LogEvent.getLine (e : LogEvent) : Int := e.m_line

/-- Accessor `LogEvent::getElapse` (log.h:58). -/
def LogEvent.getElapse (e : LogEvent) : Nat := e.m_elapse

/-- Accessor `LogEvent::getThreadId` (log.h:59). -/
def LogEvent.getThreadId (e : LogEvent) : Nat := e.m_threadId

/-- Accessor `LogEvent::getThreadName` (log.h:60). -/
def LogEvent.getThreadName (e : LogEvent) : String := e.m_threadName

/-- Accessor `LogEvent::getCoroutineId` (log.h:61). -/
def LogEvent.getCoroutineId (e : LogEvent) : Nat := e.m_coroutineId

/-- Accessor `LogEvent::getTime` (log.h:62). -/
def LogEvent.getTime (e : LogEvent) : Nat := e.m_time

/-- Accessor `LogEvent::getContent` (log.h:63): `m_ss.str()`. -/
def LogEvent.getContent (e : LogEvent) : String := e.m_ss

/-- The effect of `getSS() << s` (log.h:64) for a string `s`: the stream returned by reference
is the event's own `m_ss`, and the inserted characters go to its end. -/
def LogEvent.write (e : LogEvent) (s : String) : LogEvent :=
  { e with m_ss := e.m_ss ++ s }

/-! ## Sinks (`LogAppender`, log.h:112-136, 180-208) -/

/-- The concrete class of an appender: `StdoutLogAppender` or `FileLogAppender` with its
`m_filename`. -/
inductive AppenderKind where
  | Stdout
  | File (m_filename : String)
  deriving DecidableEq

/-- The state of a `LogAppender` the threshold check reads: `m_level` (log.h:132), together
with the concrete class. -/
structure LogAppender where
  m_level : Level
  kind : AppenderKind
  deriving DecidableEq

/-- The default argument `LogLevel::Level level = LogLevel::UNKNOWN` written at the three
constructors (log.h:119, 185, 198). -/
def LogAppender.defaultLevel : Level := .UNKNOWN

/-- Modelled from the spec: the body of `LogAppender::LogAppender(LogLevel::Level level)`
(declared at log.h:119, defined in log.cpp): the threshold of the sink is the level it is
constructed with (spec 4.5: a console sink built with the default is "at UNKNOWN threshold").
`none` is a call that omits the argument, which then takes the header's default. -/
def LogAppender.ctor (kind : AppenderKind) (level : Option Level) : LogAppender :=
  ⟨level.getD LogAppender.defaultLevel, kind⟩

/-- Modelled from the spec: `StdoutLogAppender::StdoutLogAppender(level)` (declared at
log.h:185, defined in log.cpp), which initialises its `LogAppender` base with `level`. -/
def StdoutLogAppender.ctor (level : Option Level) : LogAppender :=
  LogAppender.ctor .Stdout level

/-- Modelled from the spec: `FileLogAppender::FileLogAppender(filename, level)` (declared at
log.h:198, defined in log.cpp), which initialises its `LogAppender` base with `level`. -/
def FileLogAppender.ctor (filename : String) (level : Option Level) : LogAppender :=
  LogAppender.ctor (.File filename) level

/-- Accessor `LogAppender::getLevel` (log.h:129). -/
def LogAppender.getLevel (a : LogAppender) : Level := a.m_level

/-- Mutator `LogAppender::setLevel` (log.h:128). -/
def LogAppender.setLevel (a : LogAppender) (level : Level) : LogAppender :=
  { a with m_level := level }

/-- One render-and-write a sink proceeds to: which sink, for which logger, at which severity,
which event. The text produced by the formatter is not part of the record; whether the write
goes through or is skipped for an I/O failure is decided apart (`Logger.logOutput`). -/
structure Write where
  appender : LogAppender
  logger : String
  level : Level
  event : LogEvent
  deriving DecidableEq

/-- Modelled from the spec: the body of `LogAppender::log` (pure virtual at log.h:122, its
overrides defined in log.cpp). Spec 4.3: "if `severity < own threshold`, do nothing (no side
effect, no error). Otherwise resolve the effective formatter, render, and write." The result is
the write the sink proceeds to once its threshold check has passed; the skipping of a write
whose destination fails (spec 4.3, 7(b)) is applied to it by `Logger.logOutput`. -/
def LogAppender.log (a : LogAppender) (logger : String) (level : Level) (event : LogEvent) :
    List Write :=
  if level < a.m_level then [] else [⟨a, logger, level, event⟩]

/-! ## The scoped emitter (`LogEventWrapper`, log.h:211-222) -/

/-- An address of a heap object: what a `std::shared_ptr` holds. -/
abbrev Ptr := Nat

/-- The fields of `LogEventWrapper` (log.h:219-221). The event is owned by the wrapper until
it is handed to the logger, so it is held by value. -/
structure LogEventWrapper where
  m_logger : Ptr
  m_level : Level
  m_event : LogEvent
  deriving DecidableEq

/-- Accessor `LogEventWrapper::getEvent` (log.h:216). -/
def LogEventWrapper.getEvent (w : LogEventWrapper) : LogEvent := w.m_event

/-- The effect of `getSS() << s` on a wrapper (log.h:215): `getSS` returns
`m_event->getSS()`, so the characters are inserted into the bound event's stream. -/
def LogEventWrapper.write (w : LogEventWrapper) (s : String) : LogEventWrapper :=
  { w with m_event := w.m_event.write s }

/-! ## Loggers (`Logger`, log.h:139-177) -/

/-- The fields of `Logger` that dispatch reads (log.h:170-175): name, threshold, the attached
sinks in attachment order, and the back-reference `m_root` (null for the root itself). -/
structure Logger where
  m_name : String
  m_level : Level
  m_appenders : List LogAppender
  m_root : Option Ptr
  deriving DecidableEq

/-- Accessor `Logger::getLevel` (log.h:159). -/
def Logger.getLevel (self : Logger) : Level := self.m_level

/-- Mutator `Logger::setLevel` (log.h:160): `m_level = val`. -/
def Logger.setLevel (self : Logger) (val : Level) : Logger :=
  { self with m_level := val }

/-- Accessor `Logger::getName` (log.h:162). -/
def Logger.getName (self : Logger) : String := self.m_name

/-- Step 2 of the dispatch of spec 4.4: "invoke `sink.log(...)` on every attached sink, in
attachment order". -/
def Logger.dispatch (self : Logger) (level : Level) (event : LogEvent) : List Write :=
  self.m_appenders.flatMap (fun a => a.log self.m_name level event)

/-- Modelled from the spec: `Logger::log` as the root logger performs it (declared at
log.h:147, defined in log.cpp). Spec 4.4: step 1 "if `severity < own threshold` → return, no
effect"; step 2 dispatch to the own sinks; step 4 a root with an empty sink list → no effect. -/
def Logger.logRoot (self : Logger) (level : Level) (event : LogEvent) : List Write :=
  if level < self.m_level then [] else self.dispatch level event

/-- Modelled from the spec: the body of `Logger::log` (declared at log.h:147, defined in
log.cpp). Spec 4.4: 1. "if `severity < own threshold` → return, no effect"; 2. "if the sink
list is non-empty → invoke `sink.log(...)` on every attached sink, in attachment order";
3. "else, if this logger is not itself the root → forward the call to the root logger ...
fallback delegates to the root's full `log` entry point"; 4. otherwise no effect.
`root` is the logger the back-reference `m_root` points to when the call is made (`none` for
the root itself, whose back-reference is null). The result is the list of sink writes. -/
def Logger.log (self : Logger) (root : Option Logger) (level : Level) (event : LogEvent) :
    List Write :=
  if level < self.m_level then []
  else if !self.m_appenders.isEmpty then self.dispatch level event
  else
    match root with
    | some r => r.logRoot level event
    | none => []

/-- Modelled from the spec: the outcome of the I/O of a sink write. Spec 4.3: a `ConsoleSink`
"writes the rendered line to the standard output stream"; for a `FileSink` "a failed reopen is
reported but does not crash the process; the write is skipped for that call". `opened path`
tells whether the handle of the file sink of `path` is open when the write is due (it was
open and the day has not changed, or the reopen succeeded). -/
def Write.goesThrough (opened : String → Bool) (w : Write) : Bool :=
  match w.appender.kind with
  | .Stdout => true
  | .File m_filename => opened m_filename

/-- Modelled from the spec: the output of a call of `Logger::log`. Of the writes the sinks
proceed to, those whose I/O fails are skipped and the others are made (spec 7(b): "that sink's
write for the current call is skipped, other sinks still attempted"; spec 4.4 step 2: "a
failure in one sink must not prevent the remaining sinks from being attempted"). `ok w` tells
whether the write `w` goes through. -/
def Logger.logOutput (ok : Write → Bool) (self : Logger) (root : Option Logger)
    (level : Level) (event : LogEvent) : List Write :=
  (self.log root level event).filter ok

/-! ## Strings and ordered maps -/

/-- The function `::tolower` in the "C" locale: the letters `A`..`Z` go to `a`..`z`, every other
character is returned as it is. -/
def tolower (c : Char) : Char :=
  if 65 ≤ c.toNat ∧ c.toNat ≤ 90 then Char.ofNat (c.toNat + 32) else c

/-- The call `std::transform(s.begin(), s.end(), s.begin(), ::tolower)` (config.h:28). -/
def transform_tolower (s : String) : String :=
  ⟨s.data.map tolower⟩

/-- Scan of `find_first_not_of`: the position, counted from `i`, of the first character that
is not one of `chars`. -/
def firstNotOf (chars : List Char) : List Char → Nat → Option Nat
  | [], _ => none
  | c :: cs, i => if c ∈ chars then firstNotOf chars cs (i + 1) else some i

/-- The call `s.find_first_not_of(chars)`; `none` is `std::string::npos`. -/
def find_first_not_of (s chars : String) : Option Nat :=
  firstNotOf chars.data s.data 0

/-- The literal of config.h:368. -/
def Config.alphabet : String := "abcdefghijklmnopqrstuvwxyz._0123456789"

/-- The call `m.find(k)` on a `std::map<std::string, V>`, represented by its list of entries
(keys are unique; no modelled operation iterates the map, so entries are kept in insertion
order): `none` is `m.end()`, otherwise the mapped value. -/
def StdMap.find {V : Type} : List (String × V) → String → Option V
  | [], _ => none
  | (k', v) :: m, k => if k' = k then some v else StdMap.find m k

/-- The assignment `m[k] = v` on a `std::map<std::string, V>`: the entry of `k` is replaced,
or added when there is none. -/
def StdMap.set {V : Type} : List (String × V) → String → V → List (String × V)
  | [], k, v => [(k, v)]
  | (k', v') :: m, k, v => if k' = k then (k, v) :: m else (k', v') :: StdMap.set m k v

/-- The exceptions the modelled code throws: `std::invalid_argument(what)`. -/
inductive Exn where
  | invalid_argument (what : String)
  deriving DecidableEq

deriving instance DecidableEq for Except

/-! ## The logger registry (`LogManager`, log.h:225-240) -/

/-- Modelled from the spec: the constructor `Logger::Logger(name)` (declared at log.h:145,
defined in log.cpp). Spec 3 and 4.5: the name is "case-normalized at construction", the new
logger has "default threshold, empty sink list", and no back-reference yet. The value of the
default threshold is not given by the spec and is the parameter `dflt`. -/
def Logger.ctor (dflt : Level) (name : String) : Logger :=
  ⟨transform_tolower name, dflt, [], none⟩

/-- Modelled from the spec: `Logger::addAppender` (declared at log.h:155, defined in log.cpp):
the sink is attached at the end of the list ("in attachment order"). -/
def Logger.addAppender (self : Logger) (appender : LogAppender) : Logger :=
  { self with m_appenders := self.m_appenders ++ [appender] }

/-- The state of a `LogManager` (log.h:237-238) with the loggers it has allocated: a
`Logger::ptr` is an index into `heap`. -/
structure LogManager where
  heap : List Logger
  m_loggers : List (String × Ptr)
  m_root : Ptr
  deriving DecidableEq

/-- Modelled from the spec: the constructor `LogManager::LogManager()` (declared at log.h:229,
defined in log.cpp). Spec 3 and 4.5: the name "root" always resolves; the root logger "by
default owns one `ConsoleSink` at UNKNOWN threshold". -/
def LogManager.ctor (dflt : Level) : LogManager :=
  ⟨[(Logger.ctor dflt "root").addAppender (StdoutLogAppender.ctor none)], [("root", 0)], 0⟩

/-- Accessor `LogManager::getRoot` (log.h:233). -/
def LogManager.getRoot (mgr : LogManager) : Ptr := mgr.m_root

/-- Modelled from the spec: the body of `LogManager::getLogger` (declared at log.h:230,
defined in log.cpp). Spec 4.5: "canonicalizes `name`, looks it up; if absent, constructs a new
`Logger` with default threshold, empty sink list, no own formatter, and its root
back-reference set to the registry's root, inserts it, and returns it"; spec 7 (c): a name
that "contains characters outside the canonical alphabet after normalization" makes the
lookup fail loudly. The canonical alphabet of logger names is not given by the spec and is the
parameter `alphabet`. The result is the returned handle, or the exception, and the state. -/
def LogManager.getLogger (alphabet : String) (dflt : Level) (mgr : LogManager) (name : String) :
    Except Exn Ptr × LogManager :=
  let key := transform_tolower name
  if (find_first_not_of key alphabet).isSome then (.error (.invalid_argument name), mgr)
  else
    match StdMap.find mgr.m_loggers key with
    | some p => (.ok p, mgr)
    | none =>
      let p := mgr.heap.length
      let logger : Logger := { Logger.ctor dflt name with m_root := some mgr.m_root }
      (.ok p, ⟨mgr.heap ++ [logger], StdMap.set mgr.m_loggers key p, mgr.m_root⟩)

/-- The call `p->setLevel(val)` through a handle `p`. -/
def LogManager.setLevel (mgr : LogManager) (p : Ptr) (val : Level) : LogManager :=
  match mgr.heap[p]? with
  | some l => ⟨mgr.heap.set p (l.setLevel val), mgr.m_loggers, mgr.m_root⟩
  | none => mgr

/-- The call `p->getLevel()` through a handle `p` (`none` when `p` is not allocated). -/
def LogManager.getLevel (mgr : LogManager) (p : Ptr) : Option Level :=
  (mgr.heap[p]?).map Logger.getLevel

/-- The call `p->log(level, event)` through a handle `p`: the back-reference of the logger is
followed in the current state. -/
def LogManager.log (mgr : LogManager) (p : Ptr) (level : Level) (event : LogEvent) :
    List Write :=
  match mgr.heap[p]? with
  | some l => l.log (l.m_root.bind (fun r => mgr.heap[r]?)) level event
  | none => []

/-! ## Configuration variables (`ConfigVarBase`, `ConfigVar`, config.h:22-43, 302-342) -/

/-- The fields of `ConfigVarBase` (config.h:41-42). -/
structure ConfigVarBase where
  m_name : String
  m_description : String
  deriving DecidableEq

/-- The constructor `ConfigVarBase(name, description)` (config.h:25-29): the members are
initialised from the arguments, then `m_name` is lowercased in place. -/
def ConfigVarBase.ctor (name description : String) : ConfigVarBase :=
  ⟨transform_tolower name, description⟩

/-- Accessor `ConfigVarBase::getName` (config.h:33). -/
def ConfigVarBase.getName (v : ConfigVarBase) : String := v.m_name

/-- Accessor `ConfigVarBase::getDescription` (config.h:34). -/
def ConfigVarBase.getDescription (v : ConfigVarBase) : String := v.m_description

/-- An object of class `ConfigVar<T>` (config.h:302-342): the base, the template argument `T`
(an element of the type of type tags `Ty`; it is what `dynamic_pointer_cast` inspects) and the
value `m_val`, an element of `Val`. -/
structure ConfigVar (Ty Val : Type) extends ConfigVarBase where
  T : Ty
  m_val : Val
  deriving DecidableEq

/-- The constructor `ConfigVar(name, default_value, description)` (config.h:307-311). -/
def ConfigVar.ctor {Ty Val : Type} (T : Ty) (name : String) (default_value : Val)
    (description : String) : ConfigVar Ty Val :=
  ⟨ConfigVarBase.ctor name description, T, default_value⟩

/-- Accessor `ConfigVar::getValue` (config.h:336). -/
def ConfigVar.getValue {Ty Val : Type} (x : ConfigVar Ty Val) : Val := x.m_val

/-- Mutator `ConfigVar::setValue` (config.h:337). -/
def ConfigVar.setValue {Ty Val : Type} (x : ConfigVar Ty Val) (v : Val) : ConfigVar Ty Val :=
  { x with m_val := v }

/-! ## The configuration registry (`Config`, config.h:345-392) -/

/-- The static map `Config::s_data` (config.h:391) with the variables allocated so far: a
`ConfigVarBase::ptr` is an index into `heap`. -/
structure Config (Ty Val : Type) where
  heap : List (ConfigVar Ty Val)
  s_data : List (String × Ptr)
  deriving DecidableEq

/-- The registry before any call. -/
def Config.empty {Ty Val : Type} : Config Ty Val := ⟨[], []⟩

/-- The cast `std::dynamic_pointer_cast<ConfigVar<T>>(p)`: `p` when the object it points to is
a `ConfigVar<T>`, otherwise null (`none`). -/
def Config.cast {Ty Val : Type} [DecidableEq Ty] (st : Config Ty Val) (T : Ty) (p : Ptr) :
    Option Ptr :=
  match st.heap[p]? with
  | some obj => if obj.T = T then some p else none
  | none => none

/-- The creating overload `Config::lookup<T>(name, default_value, description)`
(config.h:349-376). The result is the returned pointer (`none` is `nullptr`) or the exception
thrown, and the registry after the call. The messages the function sends to the root logger
are not part of the registry and are left out. -/
def Config.lookup {Ty Val : Type} [DecidableEq Ty] (st : Config Ty Val) (T : Ty)
    (name : String) (default_value : Val) (description : String) :
    Except Exn (Option Ptr) × Config Ty Val :=
  match StdMap.find st.s_data name with
  | some it =>
    match st.cast T it with
    | some tmp => (.ok (some tmp), st)
    | none => (.ok none, st)
  | none =>
    if (find_first_not_of name Config.alphabet).isSome then
      (.error (.invalid_argument name), st)
    else
      let v := st.heap.length
      (.ok (some v),
        ⟨st.heap ++ [ConfigVar.ctor T name default_value description],
          StdMap.set st.s_data name v⟩)

/-- The finding overload `Config::lookup<T>(name)` (config.h:378-385). -/
def Config.lookupByName {Ty Val : Type} [DecidableEq Ty] (st : Config Ty Val) (T : Ty)
    (name : String) : Option Ptr :=
  match StdMap.find st.s_data name with
  | none => none
  | some it => st.cast T it

/-- The call `p->getValue()` through a handle `p` (`none` when `p` is not allocated). -/
def Config.getValue {Ty Val : Type} (st : Config Ty Val) (p : Ptr) : Option Val :=
  (st.heap[p]?).map ConfigVar.getValue

/-- The call `p->setValue(v)` through a handle `p`. -/
def Config.setValue {Ty Val : Type} (st : Config Ty Val) (p : Ptr) (v : Val) : Config Ty Val :=
  match st.heap[p]? with
  | some x => ⟨st.heap.set p (x.setValue v), st.s_data⟩
  | none => st

/-- The call `p->getName()` through a handle `p` (`none` when `p` is not allocated). -/
def Config.getName {Ty Val : Type} (st : Config Ty Val) (p : Ptr) : Option String :=
  (st.heap[p]?).map (fun x => x.getName)

/-- The registry states that calls of `Config::lookup` (either overload; the finding one does
not change the registry) and `setValue` calls through the handles can produce from the
registry before any call. -/
inductive Config.Reachable {Ty Val : Type} [DecidableEq Ty] : Config Ty Val → Prop where
  | start : Config.Reachable Config.empty
  | lookup (st : Config Ty Val) (T : Ty) (name : String) (default_value : Val)
      (description : String) :
      Config.Reachable st → Config.Reachable (st.lookup T name default_value description).2
  | setValue (st : Config Ty Val) (p : Ptr) (v : Val) :
      Config.Reachable st → Config.Reachable (st.setValue p v)

/-- The invariant of the registry: every registered key is made of characters of the alphabet
only, and the pointer stored under it points to an allocated variable whose `getName()` is the
key. -/
def Config.Inv {Ty Val : Type} (st : Config Ty Val) : Prop :=
  ∀ e ∈ st.s_data, (∀ c ∈ e.1.data, c ∈ Config.alphabet.data) ∧
    (st.heap[e.2]?).map (fun x => x.getName) = some e.1

/-- Validity of the shared pointers a `LogManager` holds: `m_root` and every pointer stored in
`m_loggers` point to an allocated logger. -/
def LogManager.WF (mgr : LogManager) : Prop :=
  mgr.m_root < mgr.heap.length ∧ ∀ e ∈ mgr.m_loggers, e.2 < mgr.heap.length

/-- One call of `Config::lookup`: the creating overload
`lookup<T>(name, default_value, description)` (config.h:349-376) or the finding overload
`lookup<T>(name)` (config.h:378-385). -/
inductive Config.Call (Ty Val : Type) where
  | create (T : Ty) (name : String) (default_value : Val) (description : String)
  | find (T : Ty) (name : String)

/-- The registry after one call. A creating call that throws or returns null leaves the
registry it had (the second component of `Config.lookup`); the finding overload only reads
`s_data` and returns the pointer `Config.lookupByName` computes. -/
def Config.step {Ty Val : Type} [DecidableEq Ty] (st : Config Ty Val) :
    Config.Call Ty Val → Config Ty Val
  | .create T name default_value description => (st.lookup T name default_value description).2
  | .find _ _ => st

/-- The registry after a sequence of calls, made in the order of the list. -/
def Config.run {Ty Val : Type} [DecidableEq Ty] (st : Config Ty Val)
    (calls : List (Config.Call Ty Val)) : Config Ty Val :=
  calls.foldl Config.step st

/-- What a conversion functor can throw: an object of a class derived from `std::exception`
(with its `what()`), such as `boost::bad_lexical_cast` or `YAML::Exception`, or an object of
any other type `Obj`, as in `throw 42`. -/
inductive Thrown (Obj : Type) where
  | std_exception (what : String)
  | other (obj : Obj)
  deriving DecidableEq

/-- The method `ConfigVar::fromString(val)` (config.h:324-334). `FromStr` is the conversion
functor of the template: applied to the text it gives the value, or throws. In the `try` block
`setValue` runs only once the conversion has returned, and `true` is returned; the handler
`catch (std::exception& e)` (config.h:329) catches the objects of classes derived from
`std::exception`, logs and returns `false`; an object of another type matches no handler and
leaves the function as an exception. The result is the returned flag, or the exception that
reaches the caller, and the variable after the call; the message sent to the root logger is
left out. -/
def ConfigVar.fromString {Ty Val Obj : Type} (FromStr : String → Except (Thrown Obj) Val)
    (x : ConfigVar Ty Val) (val : String) : Except (Thrown Obj) Bool × ConfigVar Ty Val :=
  match FromStr val with
  | .ok v => (.ok true, x.setValue v)
  | .error (.std_exception _) => (.ok false, x)
  | .error (.other obj) => (.error (.other obj), x)

end mocker

namespace mocker

/-! ## Theorems -/

/-- C1: the severity levels are strictly ordered by the numeric comparison,
UNKNOWN < DEBUG < INFO < WARN < ERROR < FATAL; the comparison is total and strict on the whole
enumeration (two levels are equal or compare exactly one way); and REMOVED differs from each of
the six severities. -/
theorem level_strict_total_order :
    (Level.UNKNOWN < Level.DEBUG ∧ Level.DEBUG < Level.INFO ∧ Level.INFO < Level.WARN ∧
      Level.WARN < Level.ERROR ∧ Level.ERROR < Level.FATAL) ∧
    (∀ a b : Level, a = b ∨ (a < b ∧ ¬ b < a) ∨ (b < a ∧ ¬ a < b)) ∧
    (∀ a : Level, ¬ a < a) ∧
    (∀ a b c : Level, a < b → b < c → a < c) ∧
    (Level.REMOVED ≠ Level.UNKNOWN ∧ Level.REMOVED ≠ Level.DEBUG ∧
      Level.REMOVED ≠ Level.INFO ∧ Level.REMOVED ≠ Level.WARN ∧
      Level.REMOVED ≠ Level.ERROR ∧ Level.REMOVED ≠ Level.FATAL) := by
  refine ⟨by decide, ?_, ?_, ?_, by decide⟩
  · intro a b
    cases a <;> cases b <;> decide
  · intro a
    cases a <;> decide
  · intro a b c hab hbc
    exact Nat.lt_trans hab hbc

/-! ### Severity comparison -/

theorem Level.lt_def (a b : Level) : a < b ↔ a.toNat < b.toNat := Iff.rfl

theorem Level.le_def (a b : Level) : a ≤ b ↔ a.toNat ≤ b.toNat := Iff.rfl

theorem Level.not_lt (a b : Level) : ¬ a < b ↔ b ≤ a := Nat.not_lt

/-! ### Parsing a severity -/

/-- C8: `LogLevel::FromString` is a case-sensitive exact match. It returns DEBUG, INFO, WARN,
ERROR, FATAL for exactly the strings "DEBUG", "INFO", "WARN", "ERROR", "FATAL", and UNKNOWN for
every other string, among them the empty string and the lowercase spellings; it returns REMOVED
for no input. It is a total function, so it never raises. -/
theorem FromString_exact_match (s : String) :
    (LogLevel.FromString s = Level.DEBUG ↔ s = "DEBUG") ∧
    (LogLevel.FromString s = Level.INFO ↔ s = "INFO") ∧
    (LogLevel.FromString s = Level.WARN ↔ s = "WARN") ∧
    (LogLevel.FromString s = Level.ERROR ↔ s = "ERROR") ∧
    (LogLevel.FromString s = Level.FATAL ↔ s = "FATAL") ∧
    (LogLevel.FromString s = Level.UNKNOWN ↔
      s ≠ "DEBUG" ∧ s ≠ "INFO" ∧ s ≠ "WARN" ∧ s ≠ "ERROR" ∧ s ≠ "FATAL") ∧
    LogLevel.FromString s ≠ Level.REMOVED ∧
    LogLevel.FromString "" = Level.UNKNOWN ∧
    LogLevel.FromString "debug" = Level.UNKNOWN ∧
    LogLevel.FromString "info" = Level.UNKNOWN ∧
    LogLevel.FromString "warn" = Level.UNKNOWN ∧
    LogLevel.FromString "error" = Level.UNKNOWN ∧
    LogLevel.FromString "fatal" = Level.UNKNOWN ∧
    LogLevel.FromString "Debug" = Level.UNKNOWN := by
  refine ⟨?_, ?_, ?_, ?_, ?_, ?_, ?_, by decide, by decide, by decide, by decide, by decide,
    by decide, by decide⟩ <;>
  · unfold LogLevel.FromString
    by_cases h1 : s = "DEBUG"
    · subst h1; decide
    by_cases h2 : s = "INFO"
    · subst h2; decide
    by_cases h3 : s = "WARN"
    · subst h3; decide
    by_cases h4 : s = "ERROR"
    · subst h4; decide
    by_cases h5 : s = "FATAL"
    · subst h5; decide
    simp [h1, h2, h3, h4, h5]

/-! ### Sinks -/

/-- C10: a sink built without an explicit level has threshold UNKNOWN, whichever its concrete
class; no level `l` of the enumeration, REMOVED included, satisfies `l < UNKNOWN`; so the
threshold check of such a sink drops no severity: its `log` performs the write. -/
theorem default_appender_accepts_every_level (kind : AppenderKind) (filename logger : String)
    (l : Level) (event : LogEvent) :
    (LogAppender.ctor kind none).getLevel = Level.UNKNOWN ∧
    (StdoutLogAppender.ctor none).getLevel = Level.UNKNOWN ∧
    (FileLogAppender.ctor filename none).getLevel = Level.UNKNOWN ∧
    ¬ l < Level.UNKNOWN ∧
    (LogAppender.ctor kind none).log logger l event =
      [⟨LogAppender.ctor kind none, logger, l, event⟩] ∧
    (StdoutLogAppender.ctor none).log logger l event =
      [⟨StdoutLogAppender.ctor none, logger, l, event⟩] ∧
    (FileLogAppender.ctor filename none).log logger l event =
      [⟨FileLogAppender.ctor filename none, logger, l, event⟩] := by
  have hl : ¬ l < Level.UNKNOWN := by
    rw [Level.lt_def]
    exact Nat.not_lt_zero _
  refine ⟨rfl, rfl, rfl, hl, ?_, ?_, ?_⟩
  · exact if_neg hl
  · exact if_neg hl
  · exact if_neg hl

/-! ### The scoped emitter -/

theorem LogEventWrapper.foldl_write_event (strs : List String) (w : LogEventWrapper) :
    (strs.foldl LogEventWrapper.write w).m_event =
      { w.m_event with m_ss := strs.foldl (fun r s => r ++ s) w.m_event.m_ss } := by
  induction strs generalizing w with
  | nil => rfl
  | cons s rest ih =>
    rw [List.foldl_cons, ih]
    rfl

theorem String.foldl_append_data (strs : List String) (acc : String) :
    (strs.foldl (fun r s => r ++ s) acc).data = acc.data ++ (strs.map String.data).flatten := by
  induction strs generalizing acc with
  | nil => simp
  | cons s rest ih =>
    rw [List.foldl_cons, ih, String.data_append]
    simp

/-- C9: the buffer a `LogEventWrapper` exposes is the message body of its event. After the
strings `strs` are appended through `getSS()`, in this order, `getEvent()->getContent()` is the
previous content followed by the appended strings concatenated in append order (character
for character), and file, line, elapse, thread id, thread name, coroutine id and time of the
event are what they were. -/
theorem LogEventWrapper_appends_to_content (w : LogEventWrapper) (strs : List String) :
    ((strs.foldl LogEventWrapper.write w).getEvent.getContent =
      w.getEvent.getContent ++ String.join strs) ∧
    ((strs.foldl LogEventWrapper.write w).getEvent.getContent.data =
      w.getEvent.getContent.data ++ (strs.map String.data).flatten) ∧
    (strs.foldl LogEventWrapper.write w).getEvent.getFile = w.getEvent.getFile ∧
    (strs.foldl LogEventWrapper.write w).getEvent.getLine = w.getEvent.getLine ∧
    (strs.foldl LogEventWrapper.write w).getEvent.getElapse = w.getEvent.getElapse ∧
    (strs.foldl LogEventWrapper.write w).getEvent.getThreadId = w.getEvent.getThreadId ∧
    (strs.foldl LogEventWrapper.write w).getEvent.getThreadName = w.getEvent.getThreadName ∧
    (strs.foldl LogEventWrapper.write w).getEvent.getCoroutineId =
      w.getEvent.getCoroutineId ∧
    (strs.foldl LogEventWrapper.write w).getEvent.getTime = w.getEvent.getTime := by
  have hdata : (strs.foldl LogEventWrapper.write w).getEvent.getContent.data =
      w.getEvent.getContent.data ++ (strs.map String.data).flatten := by
    simp only [LogEventWrapper.getEvent, LogEvent.getContent,
      LogEventWrapper.foldl_write_event, String.foldl_append_data]
  refine ⟨?_, hdata, ?_, ?_, ?_, ?_, ?_, ?_, ?_⟩
  · apply String.ext
    rw [hdata, String.data_append, String.join, String.foldl_append_data]
    simp
  all_goals simp only [LogEventWrapper.getEvent, LogEventWrapper.foldl_write_event,
    LogEvent.getFile, LogEvent.getLine, LogEvent.getElapse, LogEvent.getThreadId,
    LogEvent.getThreadName, LogEvent.getCoroutineId, LogEvent.getTime]

/-! ### Dispatch of a logger -/

theorem LogAppender.log_ne_nil (a : LogAppender) (logger : String) (level : Level)
    (event : LogEvent) : a.log logger level event ≠ [] ↔ a.m_level ≤ level := by
  unfold LogAppender.log
  by_cases h : level < a.m_level
  · simp [h, ← Level.not_lt]
  · simp [h, ← Level.not_lt]

theorem Logger.dispatch_ne_nil (self : Logger) (level : Level) (event : LogEvent) :
    self.dispatch level event ≠ [] ↔ ∃ a ∈ self.m_appenders, a.m_level ≤ level := by
  unfold Logger.dispatch
  rw [Ne, List.flatMap_eq_nil_iff]
  constructor
  · intro h
    by_contra hne
    apply h
    intro a ha
    by_contra hlog
    exact hne ⟨a, ha, (LogAppender.log_ne_nil a _ level event).mp hlog⟩
  · rintro ⟨a, ha, hle⟩ hall
    exact (LogAppender.log_ne_nil a _ level event).mpr hle (hall a ha)

theorem Logger.logRoot_ne_nil (self : Logger) (level : Level) (event : LogEvent) :
    self.logRoot level event ≠ [] ↔
      self.m_level ≤ level ∧ ∃ a ∈ self.m_appenders, a.m_level ≤ level := by
  unfold Logger.logRoot
  by_cases h : level < self.m_level
  · simp [h, ← Level.not_lt]
  · rw [if_neg h, Logger.dispatch_ne_nil]
    simp [← Level.not_lt, h]

/-- C2, as written, fails: with `s1 = s2 = INFO`, a logger carrying one console sink of
threshold UNKNOWN writes the event emitted at INFO after `setLevel(INFO)`; only a severity
strictly below the threshold is dropped. -/
theorem log_at_threshold_writes :
    ¬ ∀ (self : Logger) (root : Option Logger) (s1 s2 : Level) (event : LogEvent),
      s1 ≤ s2 → (self.setLevel s2).log root s1 event = [] := by
  intro h
  have h1 := h ⟨"app", Level.DEBUG, [StdoutLogAppender.ctor none], none⟩ none
    Level.INFO Level.INFO ⟨"log.cpp", 1, 0, 0, "main", 0, 0, "hello", "app"⟩ (by decide)
  revert h1
  decide

/-- C2, amended: for all severities `s1 < s2`, after `setLevel(s2)` a call `log(s1, event)`
produces no sink write, for every logger, every list of attached sinks, every root and every
event. -/
theorem log_below_threshold_no_write (self : Logger) (root : Option Logger) (s1 s2 : Level)
    (event : LogEvent) (h : s1 < s2) : (self.setLevel s2).log root s1 event = [] := by
  unfold Logger.log
  exact if_pos h

theorem log_below_threshold_no_write_witness :
    Level.DEBUG < Level.WARN ∧
    ((⟨"app", Level.DEBUG, [StdoutLogAppender.ctor none], none⟩ : Logger).setLevel
        Level.WARN).log none Level.DEBUG ⟨"log.cpp", 1, 0, 0, "main", 0, 0, "hello", "app"⟩
      = [] :=
  ⟨by decide, log_below_threshold_no_write _ _ _ _ _ (by decide)⟩

theorem LogAppender.mem_log (a : LogAppender) (logger : String) (level : Level)
    (event : LogEvent) (w : Write) :
    w ∈ a.log logger level event ↔ a.m_level ≤ level ∧ w = ⟨a, logger, level, event⟩ := by
  unfold LogAppender.log
  by_cases h : level < a.m_level
  · simp [h, ← Level.not_lt]
  · simp [h, ← Level.not_lt]

theorem Logger.filter_dispatch_ne_nil (ok : Write → Bool) (self : Logger) (level : Level)
    (event : LogEvent) :
    (self.dispatch level event).filter ok ≠ [] ↔
      ∃ a ∈ self.m_appenders, a.m_level ≤ level ∧
        ok ⟨a, self.m_name, level, event⟩ = true := by
  unfold Logger.dispatch
  rw [Ne, List.filter_eq_nil_iff]
  constructor
  · intro h
    by_contra hne
    apply h
    intro w hw hok
    obtain ⟨a, ha, hwa⟩ := List.mem_flatMap.mp hw
    obtain ⟨hle, hweq⟩ := (LogAppender.mem_log a _ level event w).mp hwa
    exact hne ⟨a, ha, hle, hweq ▸ hok⟩
  · rintro ⟨a, ha, hle, hok⟩ hall
    exact hall _ (List.mem_flatMap.mpr
      ⟨a, ha, (LogAppender.mem_log a _ level event _).mpr ⟨hle, rfl⟩⟩) hok

theorem Logger.filter_logRoot_ne_nil (ok : Write → Bool) (self : Logger) (level : Level)
    (event : LogEvent) :
    (self.logRoot level event).filter ok ≠ [] ↔
      self.m_level ≤ level ∧ ∃ a ∈ self.m_appenders, a.m_level ≤ level ∧
        ok ⟨a, self.m_name, level, event⟩ = true := by
  unfold Logger.logRoot
  by_cases h : level < self.m_level
  · simp [h, ← Level.not_lt]
  · rw [if_neg h, Logger.filter_dispatch_ne_nil]
    simp [← Level.not_lt, h]

/-- C3, as written, fails: a logger without sinks, threshold DEBUG, emits at INFO, and the
root has threshold UNKNOWN and one sink, so the root's threshold is below INFO and the root has
a sink. Yet nothing is written when the sink's own threshold is FATAL (every write going
through), and nothing is written when the sink is a file sink of threshold UNKNOWN whose file
cannot be opened. -/
theorem fallback_root_sink_filters :
    (¬ ∀ (ok : Write → Bool) (self root : Logger) (s : Level) (event : LogEvent),
      self.m_appenders = [] → self.m_level ≤ s →
      (self.logOutput ok (some root) s event ≠ [] ↔
        root.m_level ≤ s ∧ root.m_appenders ≠ [])) ∧
    (⟨"app", Level.DEBUG, [], some 0⟩ : Logger).logOutput (fun _ => true)
      (some ⟨"root", Level.UNKNOWN, [StdoutLogAppender.ctor (some Level.FATAL)], none⟩)
      Level.INFO ⟨"log.cpp", 1, 0, 0, "main", 0, 0, "hello", "app"⟩ = [] ∧
    (⟨"app", Level.DEBUG, [], some 0⟩ : Logger).logOutput (Write.goesThrough (fun _ => false))
      (some ⟨"root", Level.UNKNOWN, [FileLogAppender.ctor "/nonexistent/dir/x.log" none], none⟩)
      Level.INFO ⟨"log.cpp", 1, 0, 0, "main", 0, 0, "hello", "app"⟩ = [] := by
  refine ⟨?_, by decide, by decide⟩
  intro h
  have h1 := h (fun _ => true) ⟨"app", Level.DEBUG, [], some 0⟩
    ⟨"root", Level.UNKNOWN, [StdoutLogAppender.ctor (some Level.FATAL)], none⟩
    Level.INFO ⟨"log.cpp", 1, 0, 0, "main", 0, 0, "hello", "app"⟩ rfl (by decide)
  revert h1
  decide

/-- C3, amended: for every non-root logger with an empty sink list and threshold `T`, and
every severity `s ≥ T`, `log(s, event)` produces output if and only if the root's own threshold
is `≤ s` and the root has at least one sink whose own threshold is `≤ s` and whose write is not
skipped for an I/O failure. -/
theorem fallback_two_stage_filter (ok : Write → Bool) (self root : Logger) (s : Level)
    (event : LogEvent) (hempty : self.m_appenders = []) (hs : self.m_level ≤ s) :
    self.logOutput ok (some root) s event ≠ [] ↔
      root.m_level ≤ s ∧ ∃ a ∈ root.m_appenders, a.m_level ≤ s ∧
        ok ⟨a, root.m_name, s, event⟩ = true := by
  unfold Logger.logOutput Logger.log
  rw [if_neg ((Level.not_lt _ _).mpr hs), hempty]
  simpa using Logger.filter_logRoot_ne_nil ok root s event

theorem fallback_two_stage_filter_witness :
    (⟨"app", Level.DEBUG, [], some 0⟩ : Logger).m_appenders = [] ∧
    (⟨"app", Level.DEBUG, [], some 0⟩ : Logger).m_level ≤ Level.INFO ∧
    ((⟨"app", Level.DEBUG, [], some 0⟩ : Logger).logOutput
        (Write.goesThrough (fun path => decide (path = "/var/log/app.log")))
        (some ⟨"root", Level.INFO, [FileLogAppender.ctor "/nonexistent/dir/x.log" none,
          FileLogAppender.ctor "/var/log/app.log" (some Level.INFO)], none⟩) Level.INFO
        ⟨"log.cpp", 1, 0, 0, "main", 0, 0, "hello", "app"⟩ ≠ [] ↔
      (⟨"root", Level.INFO, [FileLogAppender.ctor "/nonexistent/dir/x.log" none,
          FileLogAppender.ctor "/var/log/app.log" (some Level.INFO)], none⟩ : Logger).m_level ≤
        Level.INFO ∧
      ∃ a ∈ (⟨"root", Level.INFO, [FileLogAppender.ctor "/nonexistent/dir/x.log" none,
          FileLogAppender.ctor "/var/log/app.log" (some Level.INFO)], none⟩ : Logger).m_appenders,
        a.m_level ≤ Level.INFO ∧
        Write.goesThrough (fun path => decide (path = "/var/log/app.log"))
          ⟨a, "root", Level.INFO, ⟨"log.cpp", 1, 0, 0, "main", 0, 0, "hello", "app"⟩⟩ = true) ∧
    (⟨"app", Level.DEBUG, [], some 0⟩ : Logger).logOutput
        (Write.goesThrough (fun path => decide (path = "/var/log/app.log")))
        (some ⟨"root", Level.INFO, [FileLogAppender.ctor "/nonexistent/dir/x.log" none,
          FileLogAppender.ctor "/var/log/app.log" (some Level.INFO)], none⟩) Level.INFO
        ⟨"log.cpp", 1, 0, 0, "main", 0, 0, "hello", "app"⟩ =
      [⟨FileLogAppender.ctor "/var/log/app.log" (some Level.INFO), "root", Level.INFO,
        ⟨"log.cpp", 1, 0, 0, "main", 0, 0, "hello", "app"⟩⟩] :=
  ⟨rfl, by decide, fallback_two_stage_filter _ _ _ _ _ rfl (by decide), by decide⟩

/-! ### Case folding of names -/

theorem tolower_toNat (c : Char) :
    (tolower c).toNat = if 65 ≤ c.toNat ∧ c.toNat ≤ 90 then c.toNat + 32 else c.toNat := by
  unfold tolower
  by_cases h : 65 ≤ c.toNat ∧ c.toNat ≤ 90
  · rw [if_pos h, if_pos h]
    obtain ⟨h1, h2⟩ := h
    generalize c.toNat = n at h1 h2
    interval_cases n <;> rfl
  · rw [if_neg h, if_neg h]

theorem tolower_not_upper (c : Char) : ¬ (65 ≤ (tolower c).toNat ∧ (tolower c).toNat ≤ 90) := by
  rw [tolower_toNat]
  by_cases h : 65 ≤ c.toNat ∧ c.toNat ≤ 90
  · rw [if_pos h]; omega
  · rw [if_neg h]; exact h

theorem tolower_eq_self_iff (c : Char) : tolower c = c ↔ ¬ (65 ≤ c.toNat ∧ c.toNat ≤ 90) := by
  constructor
  · intro h
    rw [← h]
    exact tolower_not_upper c
  · intro h
    unfold tolower
    rw [if_neg h]

theorem map_tolower_eq_self_iff (cs : List Char) :
    cs.map tolower = cs ↔ ∀ c ∈ cs, ¬ (65 ≤ c.toNat ∧ c.toNat ≤ 90) := by
  induction cs with
  | nil => simp
  | cons c rest ih =>
    simp only [List.map_cons, List.cons.injEq, List.mem_cons, forall_eq_or_imp, ih,
      tolower_eq_self_iff]

theorem transform_tolower_eq_self_iff (s : String) :
    transform_tolower s = s ↔ ∀ c ∈ s.data, ¬ (65 ≤ c.toNat ∧ c.toNat ≤ 90) := by
  rw [← map_tolower_eq_self_iff]
  constructor
  · intro h
    exact congrArg String.data h
  · intro h
    exact String.ext h

/-- C7: names are case-normalized at construction. For every string `n`, the object built by
`ConfigVarBase(n, description)` has a `getName()` of the length of `n` whose character at each
position is the one of `n`, with code + 32 when that is an uppercase letter `A`..`Z` (codes
65..90) and unchanged otherwise; no uppercase letter is left; the name is `n` itself exactly
when `n` has no uppercase letter, and normalizing a normalized name changes nothing;
`getDescription()` is the description as given. -/
theorem ConfigVarBase_ctor_normalizes_name (n description : String) :
    (ConfigVarBase.ctor n description).getName.length = n.length ∧
    (∀ i : Nat, ((ConfigVarBase.ctor n description).getName.data[i]?).map Char.toNat =
      (n.data[i]?).map
        (fun c => if 65 ≤ c.toNat ∧ c.toNat ≤ 90 then c.toNat + 32 else c.toNat)) ∧
    (∀ c ∈ (ConfigVarBase.ctor n description).getName.data,
      ¬ (65 ≤ c.toNat ∧ c.toNat ≤ 90)) ∧
    ((ConfigVarBase.ctor n description).getName = n ↔
      ∀ c ∈ n.data, ¬ (65 ≤ c.toNat ∧ c.toNat ≤ 90)) ∧
    (ConfigVarBase.ctor (ConfigVarBase.ctor n description).getName description).getName =
      (ConfigVarBase.ctor n description).getName ∧
    (ConfigVarBase.ctor n description).getDescription = description := by
  have hno : ∀ c ∈ (ConfigVarBase.ctor n description).getName.data,
      ¬ (65 ≤ c.toNat ∧ c.toNat ≤ 90) := by
    intro c hc
    simp only [ConfigVarBase.ctor, ConfigVarBase.getName, transform_tolower,
      List.mem_map] at hc
    obtain ⟨c0, _, rfl⟩ := hc
    exact tolower_not_upper c0
  refine ⟨?_, ?_, hno, ?_, ?_, rfl⟩
  · show (n.data.map tolower).length = n.data.length
    exact List.length_map _ _
  · intro i
    simp only [ConfigVarBase.ctor, ConfigVarBase.getName, transform_tolower,
      List.getElem?_map, Option.map_map]
    congr 1
    funext c
    exact tolower_toNat c
  · exact transform_tolower_eq_self_iff n
  · exact (transform_tolower_eq_self_iff _).mpr hno

/-! ### Ordered maps and the character scan -/

theorem StdMap.mem_of_find {V : Type} (m : List (String × V)) (k : String) (v : V)
    (h : StdMap.find m k = some v) : (k, v) ∈ m := by
  induction m with
  | nil => simp [StdMap.find] at h
  | cons e rest ih =>
    obtain ⟨k', v'⟩ := e
    unfold StdMap.find at h
    by_cases hk : k' = k
    · rw [if_pos hk] at h
      cases h
      rw [hk]
      exact List.mem_cons_self _ _
    · rw [if_neg hk] at h
      exact List.mem_cons_of_mem _ (ih h)

theorem StdMap.find_set_self {V : Type} (m : List (String × V)) (k : String) (v : V) :
    StdMap.find (StdMap.set m k v) k = some v := by
  induction m with
  | nil => simp [StdMap.set, StdMap.find]
  | cons e rest ih =>
    obtain ⟨k', v'⟩ := e
    unfold StdMap.set
    by_cases hk : k' = k
    · rw [if_pos hk]
      simp [StdMap.find]
    · rw [if_neg hk]
      unfold StdMap.find
      rw [if_neg hk]
      exact ih

theorem StdMap.mem_set {V : Type} (m : List (String × V)) (k : String) (v : V)
    (e : String × V) (h : e ∈ StdMap.set m k v) : e ∈ m ∨ e = (k, v) := by
  induction m with
  | nil =>
    right
    simpa [StdMap.set] using h
  | cons e' rest ih =>
    obtain ⟨k', v'⟩ := e'
    unfold StdMap.set at h
    by_cases hk : k' = k
    · rw [if_pos hk] at h
      rcases List.mem_cons.mp h with h1 | h1
      · exact Or.inr h1
      · exact Or.inl (List.mem_cons_of_mem _ h1)
    · rw [if_neg hk] at h
      rcases List.mem_cons.mp h with h1 | h1
      · left
        rw [h1]
        exact List.mem_cons_self _ _
      · rcases ih h1 with h2 | h2
        · exact Or.inl (List.mem_cons_of_mem _ h2)
        · exact Or.inr h2

theorem firstNotOf_eq_none (chars cs : List Char) (i : Nat) :
    firstNotOf chars cs i = none ↔ ∀ c ∈ cs, c ∈ chars := by
  induction cs generalizing i with
  | nil => simp [firstNotOf]
  | cons c rest ih =>
    unfold firstNotOf
    by_cases hc : c ∈ chars
    · rw [if_pos hc, ih]
      simp [hc]
    · rw [if_neg hc]
      simp [hc]

theorem find_first_not_of_isSome (s chars : String) :
    (find_first_not_of s chars).isSome = true ↔ ∃ c ∈ s.data, c ∉ chars.data := by
  rw [Option.isSome_iff_ne_none, Ne, find_first_not_of, firstNotOf_eq_none]
  push_neg
  rfl

theorem find_first_not_of_isSome_false (s chars : String) :
    ¬ (find_first_not_of s chars).isSome = true ↔ ∀ c ∈ s.data, c ∈ chars.data := by
  rw [find_first_not_of_isSome]
  push_neg
  rfl

theorem Config.alphabet_tolower : ∀ c ∈ Config.alphabet.data, tolower c = c := by
  decide

theorem Config.transform_tolower_of_valid (name : String)
    (h : ∀ c ∈ name.data, c ∈ Config.alphabet.data) : transform_tolower name = name :=
  (transform_tolower_eq_self_iff name).mpr
    (fun c hc => (tolower_eq_self_iff c).mp (Config.alphabet_tolower c (h c hc)))

/-! ### The invariant of the configuration registry -/

theorem Config.lookup_of_found {Ty Val : Type} [DecidableEq Ty] (st : Config Ty Val) (T : Ty)
    (name : String) (d : Val) (desc : String) (it : Ptr)
    (hf : StdMap.find st.s_data name = some it) :
    st.lookup T name d desc = (Except.ok (st.cast T it), st) := by
  unfold Config.lookup
  rw [hf]
  dsimp only
  cases st.cast T it <;> rfl

theorem Config.inv_empty {Ty Val : Type} : (Config.empty : Config Ty Val).Inv := by
  intro e he
  simp [Config.empty] at he

theorem Config.inv_lookup {Ty Val : Type} [DecidableEq Ty] (st : Config Ty Val) (T : Ty)
    (name : String) (d : Val) (desc : String) (h : st.Inv) :
    (st.lookup T name d desc).2.Inv := by
  cases hf : StdMap.find st.s_data name with
  | some it =>
    rw [Config.lookup_of_found st T name d desc it hf]
    exact h
  | none =>
    unfold Config.lookup
    rw [hf]
    dsimp only
    by_cases hv : (find_first_not_of name Config.alphabet).isSome = true
    · simp only [hv, if_true]
      exact h
    · simp only [hv]
      have hvalid := (find_first_not_of_isSome_false _ _).mp hv
      intro e he
      rcases StdMap.mem_set _ _ _ _ he with hold | hnew
      · obtain ⟨h1, h2⟩ := h e hold
        refine ⟨h1, ?_⟩
        have hlt : e.2 < st.heap.length := by
          by_contra hge
          rw [List.getElem?_eq_none (Nat.le_of_not_lt hge)] at h2
          simp at h2
        show ((st.heap ++ _)[e.2]?).map _ = _
        rw [List.getElem?_append_left hlt]
        exact h2
      · rw [hnew]
        refine ⟨hvalid, ?_⟩
        show ((st.heap ++ _)[st.heap.length]?).map _ = _
        rw [List.getElem?_append_right (Nat.le_refl _)]
        simp [ConfigVar.ctor, ConfigVarBase.ctor, ConfigVarBase.getName,
          Config.transform_tolower_of_valid name hvalid]

theorem Config.inv_setValue {Ty Val : Type} (st : Config Ty Val) (p : Ptr) (v : Val)
    (h : st.Inv) : (st.setValue p v).Inv := by
  unfold Config.setValue
  cases hp : st.heap[p]? with
  | none => exact h
  | some x =>
    intro e he
    obtain ⟨h1, h2⟩ := h e he
    refine ⟨h1, ?_⟩
    show ((st.heap.set p (x.setValue v))[e.2]?).map _ = _
    rw [List.getElem?_set]
    by_cases hpe : p = e.2
    · rw [if_pos hpe]
      rw [← hpe, hp] at h2
      have hlt : p < st.heap.length := by
        by_contra hge
        rw [List.getElem?_eq_none (Nat.le_of_not_lt hge)] at hp
        cases hp
      rw [if_pos hlt]
      exact h2
    · rw [if_neg hpe]
      exact h2

theorem Config.inv_of_reachable {Ty Val : Type} [DecidableEq Ty] (st : Config Ty Val)
    (h : Config.Reachable st) : st.Inv := by
  induction h with
  | start => exact Config.inv_empty
  | lookup st T name d desc _ ih => exact Config.inv_lookup st T name d desc ih
  | setValue st p v _ ih => exact Config.inv_setValue st p v ih

/-! ### Names and the creating lookup -/

/-- C5: invalid names fail loudly. In every registry state reachable through `Config::lookup`
(and `setValue` calls), for every name whose lowercase-normalized form contains a character
outside the alphabet `abcdefghijklmnopqrstuvwxyz._0123456789`, the creating lookup
`Config::lookup<T>(name, default)` throws `std::invalid_argument(name)` and the registry is
what it was before the call. -/
theorem lookup_invalid_name_raises {Ty Val : Type} [DecidableEq Ty] (st : Config Ty Val)
    (T : Ty) (name : String) (d : Val) (desc : String) (hr : Config.Reachable st)
    (hbad : ∃ c ∈ (transform_tolower name).data, c ∉ Config.alphabet.data) :
    st.lookup T name d desc = (Except.error (Exn.invalid_argument name), st) := by
  have hraw : ∃ c ∈ name.data, c ∉ Config.alphabet.data := by
    obtain ⟨c, hc, hnot⟩ := hbad
    simp only [transform_tolower, List.mem_map] at hc
    obtain ⟨c0, hc0, rfl⟩ := hc
    refine ⟨c0, hc0, ?_⟩
    intro hin
    rw [Config.alphabet_tolower c0 hin] at hnot
    exact hnot hin
  have hfind : StdMap.find st.s_data name = none := by
    cases hf : StdMap.find st.s_data name with
    | none => rfl
    | some it =>
      exfalso
      obtain ⟨c, hc, hnot⟩ := hraw
      exact hnot ((Config.inv_of_reachable st hr _ (StdMap.mem_of_find _ _ _ hf)).1 c hc)
  unfold Config.lookup
  rw [hfind]
  simp only [(find_first_not_of_isSome _ _).mpr hraw, if_true]

theorem lookup_invalid_name_raises_witness :
    (∃ c ∈ (transform_tolower "app worker").data, c ∉ Config.alphabet.data) ∧
    ((Config.empty : Config Nat String).lookup 0 "system.port" "8080" "").2.lookup
        0 "app worker" "x" "" =
      (Except.error (Exn.invalid_argument "app worker"),
        ((Config.empty : Config Nat String).lookup 0 "system.port" "8080" "").2) :=
  ⟨⟨' ', by decide, by decide⟩,
    lookup_invalid_name_raises _ 0 "app worker" "x" ""
      (Config.Reachable.lookup _ 0 "system.port" "8080" "" Config.Reachable.start)
      ⟨' ', by decide, by decide⟩⟩

/-- C6, as written, fails: "App.Worker" is not registered in the empty registry and its
lowercase form "app.worker" is made of characters of the alphabet only, yet the creating
lookup throws `std::invalid_argument` and registers nothing: the check of config.h:368 reads
the name as given, before any lowercasing. -/
theorem lookup_mixed_case_rejected :
    ¬ ∀ (st : Config Nat String) (T : Nat) (name d desc : String),
      StdMap.find st.s_data name = none →
      (∀ c ∈ (transform_tolower name).data, c ∈ Config.alphabet.data) →
      ∃ p st1, st.lookup T name d desc = (Except.ok (some p), st1) ∧
        st1.getName p = some (transform_tolower name) := by
  intro h
  obtain ⟨p, st1, h1, _⟩ := h Config.empty 0 "App.Worker" "v" "" rfl (by decide)
  have h2 : (Config.empty : Config Nat String).lookup 0 "App.Worker" "v" "" =
      (Except.error (Exn.invalid_argument "App.Worker"), Config.empty) := by
    decide
  rw [h2] at h1
  cases h1

/-- C6, amended: for every not-yet-registered name that itself consists only of characters
of the alphabet `abcdefghijklmnopqrstuvwxyz._0123456789`, the creating lookup
`Config::lookup<T>(name, default)` does not raise; it allocates a variable, registers it under
the name and returns it; its `getName()` is the lowercase form of the name, which is the name
itself, and its value is the default. -/
theorem lookup_valid_name_registers {Ty Val : Type} [DecidableEq Ty] (st : Config Ty Val)
    (T : Ty) (name : String) (d : Val) (desc : String)
    (hnew : StdMap.find st.s_data name = none)
    (hvalid : ∀ c ∈ name.data, c ∈ Config.alphabet.data) :
    (st.lookup T name d desc).1 = Except.ok (some st.heap.length) ∧
    StdMap.find (st.lookup T name d desc).2.s_data name = some st.heap.length ∧
    (st.lookup T name d desc).2.lookupByName T name = some st.heap.length ∧
    (st.lookup T name d desc).2.getName st.heap.length = some (transform_tolower name) ∧
    transform_tolower name = name ∧
    (st.lookup T name d desc).2.getValue st.heap.length = some d := by
  have hv : ¬ (find_first_not_of name Config.alphabet).isSome = true :=
    (find_first_not_of_isSome_false _ _).mpr hvalid
  have hl : st.lookup T name d desc = (Except.ok (some st.heap.length),
      ⟨st.heap ++ [ConfigVar.ctor T name d desc], StdMap.set st.s_data name st.heap.length⟩) := by
    unfold Config.lookup
    rw [hnew]
    simp only [hv]
    rfl
  rw [hl]
  refine ⟨rfl, StdMap.find_set_self _ _ _, ?_, ?_, Config.transform_tolower_of_valid name hvalid,
    ?_⟩
  · simp [Config.lookupByName, StdMap.find_set_self, Config.cast, ConfigVar.ctor]
  · simp [Config.getName, ConfigVar.ctor, ConfigVarBase.ctor, ConfigVarBase.getName]
  · simp [Config.getValue, ConfigVar.ctor, ConfigVar.getValue]

theorem lookup_valid_name_registers_witness :
    StdMap.find (Config.empty : Config Nat String).s_data "app.worker" = none ∧
    (∀ c ∈ "app.worker".data, c ∈ Config.alphabet.data) ∧
    ((Config.empty : Config Nat String).lookup 0 "app.worker" "v" "").1 =
      Except.ok (some 0) ∧
    ((Config.empty : Config Nat String).lookup 0 "app.worker" "v" "").2.getName 0 =
      some "app.worker" :=
  ⟨rfl, by decide,
    (lookup_valid_name_registers (Config.empty : Config Nat String) 0 "app.worker" "v" ""
      rfl (by decide)).1,
    by decide⟩

/-! ### Get-or-create in the two registries -/

theorem LogManager.wf_ctor (dflt : Level) : (LogManager.ctor dflt).WF := by
  refine ⟨Nat.zero_lt_one, ?_⟩
  intro e he
  simp only [LogManager.ctor, List.mem_singleton] at he
  rw [he]
  exact Nat.zero_lt_one

theorem LogManager.wf_getLogger (alphabet : String) (dflt : Level) (mgr : LogManager)
    (name : String) (h : mgr.WF) : (mgr.getLogger alphabet dflt name).2.WF := by
  unfold LogManager.getLogger
  by_cases hv : (find_first_not_of (transform_tolower name) alphabet).isSome = true
  · simp only [hv, if_true]
    exact h
  · simp only [hv]
    cases hf : StdMap.find mgr.m_loggers (transform_tolower name) with
    | some p => exact h
    | none =>
      refine ⟨?_, ?_⟩
      · show mgr.m_root < (mgr.heap ++ _).length
        rw [List.length_append]
        exact Nat.lt_of_lt_of_le h.1 (Nat.le_add_right _ _)
      · intro e he
        show e.2 < (mgr.heap ++ _).length
        rw [List.length_append]
        rcases StdMap.mem_set _ _ _ _ he with hold | hnew
        · exact Nat.lt_of_lt_of_le (h.2 e hold) (Nat.le_add_right _ _)
        · rw [hnew]
          simp

theorem LogManager.wf_setLevel (mgr : LogManager) (p : Ptr) (val : Level) (h : mgr.WF) :
    (mgr.setLevel p val).WF := by
  unfold LogManager.setLevel
  cases hp : mgr.heap[p]? with
  | none => exact h
  | some l =>
    refine ⟨?_, ?_⟩
    · show mgr.m_root < (mgr.heap.set p _).length
      rw [List.length_set]
      exact h.1
    · intro e he
      show e.2 < (mgr.heap.set p _).length
      rw [List.length_set]
      exact h.2 e he

theorem LogManager.getLogger_ok (alphabet : String) (dflt : Level) (mgr mgr1 : LogManager)
    (name : String) (h : Ptr) (hwf : mgr.WF)
    (hlog : mgr.getLogger alphabet dflt name = (Except.ok h, mgr1)) :
    ¬ (find_first_not_of (transform_tolower name) alphabet).isSome = true ∧
    StdMap.find mgr1.m_loggers (transform_tolower name) = some h ∧
    h < mgr1.heap.length := by
  unfold LogManager.getLogger at hlog
  by_cases hv : (find_first_not_of (transform_tolower name) alphabet).isSome = true
  · simp only [hv, if_true] at hlog
    cases hlog
  · refine ⟨hv, ?_⟩
    simp only [hv] at hlog
    cases hf : StdMap.find mgr.m_loggers (transform_tolower name) with
    | some p =>
      rw [hf] at hlog
      dsimp only at hlog
      cases hlog
      exact ⟨hf, hwf.2 _ (StdMap.mem_of_find _ _ _ hf)⟩
    | none =>
      rw [hf] at hlog
      dsimp only at hlog
      cases hlog
      refine ⟨StdMap.find_set_self _ _ _, ?_⟩
      show mgr.heap.length < (mgr.heap ++ _).length
      simp

theorem LogManager.getLogger_of_find (alphabet : String) (dflt : Level) (mgr : LogManager)
    (name : String) (h : Ptr)
    (hv : ¬ (find_first_not_of (transform_tolower name) alphabet).isSome = true)
    (hf : StdMap.find mgr.m_loggers (transform_tolower name) = some h) :
    mgr.getLogger alphabet dflt name = (Except.ok h, mgr) := by
  unfold LogManager.getLogger
  simp only [hv, hf]
  rfl

theorem LogManager.getLevel_setLevel (mgr : LogManager) (p : Ptr) (val : Level)
    (hp : p < mgr.heap.length) : (mgr.setLevel p val).getLevel p = some val := by
  unfold LogManager.setLevel
  rw [List.getElem?_eq_getElem hp]
  simp [LogManager.getLevel, List.getElem?_set, hp, Logger.getLevel, Logger.setLevel]

theorem LogManager.m_loggers_setLevel (mgr : LogManager) (p : Ptr) (val : Level) :
    (mgr.setLevel p val).m_loggers = mgr.m_loggers := by
  unfold LogManager.setLevel
  cases hp : mgr.heap[p]? with
  | none => rfl
  | some l => rfl

theorem Config.cast_eq_some {Ty Val : Type} [DecidableEq Ty] (st : Config Ty Val) (T : Ty)
    (p q : Ptr) : st.cast T p = some q ↔ q = p ∧ ∃ x, st.heap[p]? = some x ∧ x.T = T := by
  unfold Config.cast
  cases hobj : st.heap[p]? with
  | none => simp
  | some obj =>
    by_cases ht : obj.T = T
    · simp [ht, eq_comm]
    · simp [ht]

theorem Config.lookup_ok {Ty Val : Type} [DecidableEq Ty] (st st1 : Config Ty Val) (T : Ty)
    (name : String) (d : Val) (desc : String) (p : Ptr)
    (hcfg : st.lookup T name d desc = (Except.ok (some p), st1)) :
    StdMap.find st1.s_data name = some p ∧ st1.cast T p = some p := by
  cases hf : StdMap.find st.s_data name with
  | some it =>
    rw [Config.lookup_of_found st T name d desc it hf] at hcfg
    have h1 : st.cast T it = some p := Except.ok.inj (congrArg Prod.fst hcfg)
    have h2 : st = st1 := congrArg Prod.snd hcfg
    subst h2
    have hit : p = it := ((Config.cast_eq_some st T it p).mp h1).1
    subst hit
    exact ⟨hf, h1⟩
  | none =>
    unfold Config.lookup at hcfg
    rw [hf] at hcfg
    dsimp only at hcfg
    by_cases hv : (find_first_not_of name Config.alphabet).isSome = true
    · rw [if_pos hv] at hcfg
      cases hcfg
    · rw [if_neg hv] at hcfg
      cases hcfg
      refine ⟨StdMap.find_set_self _ _ _, ?_⟩
      simp [Config.cast, ConfigVar.ctor]

theorem Config.lookup_of_find {Ty Val : Type} [DecidableEq Ty] (st : Config Ty Val) (T : Ty)
    (name : String) (d : Val) (desc : String) (p : Ptr)
    (hf : StdMap.find st.s_data name = some p) (hc : st.cast T p = some p) :
    st.lookup T name d desc = (Except.ok (some p), st) := by
  rw [Config.lookup_of_found st T name d desc p hf, hc]

theorem Config.cast_allocated {Ty Val : Type} [DecidableEq Ty] (st : Config Ty Val) (T : Ty)
    (p : Ptr) (hc : st.cast T p = some p) : ∃ x, st.heap[p]? = some x ∧ x.T = T :=
  ((Config.cast_eq_some st T p p).mp hc).2

theorem Config.setValue_of_allocated {Ty Val : Type} (st : Config Ty Val) (p : Ptr) (v : Val)
    (x : ConfigVar Ty Val) (hx : st.heap[p]? = some x) :
    st.setValue p v = ⟨st.heap.set p (x.setValue v), st.s_data⟩ ∧
    (st.heap.set p (x.setValue v))[p]? = some (x.setValue v) := by
  have hlt : p < st.heap.length := by
    by_contra hge
    rw [List.getElem?_eq_none (Nat.le_of_not_lt hge)] at hx
    cases hx
  refine ⟨?_, ?_⟩
  · unfold Config.setValue
    rw [hx]
  · rw [List.getElem?_set]
    simp [hlt]

/-- C4, as written, fails for `Config::lookup`: for the spec's own name "App.Worker" the first
creating lookup in the empty registry throws (the name has uppercase letters), so no entry is
created, and the second call throws again; neither call returns an object. -/
theorem lookup_twice_mixed_case_no_object :
    ¬ ∀ (st : Config Nat String) (T : Nat) (name d1 d2 desc : String),
      ∃ p, (st.lookup T name d1 desc).1 = Except.ok (some p) ∧
        ((st.lookup T name d1 desc).2.lookup T name d2 desc).1 = Except.ok (some p) := by
  intro h
  obtain ⟨p, h1, _⟩ := h Config.empty 0 "App.Worker" "a" "b" ""
  have h2 : ((Config.empty : Config Nat String).lookup 0 "App.Worker" "a" "").1 =
      Except.error (Exn.invalid_argument "App.Worker") := by
    decide
  rw [h2] at h1
  cases h1

/-- C4, amended: get-or-create is idempotent whenever the first call returns an object. If
`LogManager::getLogger(name)` returns a handle `h` (in a registry whose pointers are valid),
a second call with that name returns `h` and leaves the registry as it is, a `setLevel` through
the handle is read back by `getLevel` through it, and the name still resolves to `h`
afterwards. Likewise, if `Config::lookup<T>(name, d1)` returns a non-null handle `p`, a second
`Config::lookup<T>(name, d2)` returns `p` whatever the new default and description, leaves the
registry as it is (no entry added or replaced), a `setValue` through the handle is read back
by `getValue`, and the name still resolves to `p` afterwards. -/
theorem registry_lookup_idempotent {Ty Val : Type} [DecidableEq Ty]
    (alphabet : String) (dflt : Level) (mgr mgr1 : LogManager) (lname : String) (h : Ptr)
    (lv : Level) (st st1 : Config Ty Val) (T : Ty) (name : String) (d1 d2 : Val)
    (desc1 desc2 : String) (p : Ptr) (v : Val)
    (hwf : mgr.WF)
    (hlog : mgr.getLogger alphabet dflt lname = (Except.ok h, mgr1))
    (hcfg : st.lookup T name d1 desc1 = (Except.ok (some p), st1)) :
    (mgr1.getLogger alphabet dflt lname = (Except.ok h, mgr1) ∧
      (mgr1.setLevel h lv).getLevel h = some lv ∧
      (mgr1.setLevel h lv).getLogger alphabet dflt lname =
        (Except.ok h, mgr1.setLevel h lv)) ∧
    (st1.lookup T name d2 desc2 = (Except.ok (some p), st1) ∧
      (st1.setValue p v).getValue p = some v ∧
      (st1.setValue p v).lookup T name d2 desc2 = (Except.ok (some p), st1.setValue p v)) := by
  obtain ⟨hv, hf, hlt⟩ := LogManager.getLogger_ok alphabet dflt mgr mgr1 lname h hwf hlog
  obtain ⟨hfc, hc⟩ := Config.lookup_ok st st1 T name d1 desc1 p hcfg
  obtain ⟨x, hx, hxT⟩ := Config.cast_allocated st1 T p hc
  obtain ⟨hset, hget⟩ := Config.setValue_of_allocated st1 p v x hx
  refine ⟨⟨?_, ?_, ?_⟩, ?_, ?_, ?_⟩
  · exact LogManager.getLogger_of_find alphabet dflt mgr1 lname h hv hf
  · exact LogManager.getLevel_setLevel mgr1 h lv hlt
  · apply LogManager.getLogger_of_find alphabet dflt _ lname h hv
    rw [LogManager.m_loggers_setLevel]
    exact hf
  · exact Config.lookup_of_find st1 T name d2 desc2 p hfc hc
  · rw [hset]
    show ((st1.heap.set p (x.setValue v))[p]?).map ConfigVar.getValue = some v
    rw [hget]
    rfl
  · apply Config.lookup_of_find
    · rw [hset]
      exact hfc
    · rw [hset]
      apply (Config.cast_eq_some _ T p p).mpr
      exact ⟨rfl, x.setValue v, hget, hxT⟩

theorem registry_lookup_idempotent_witness :
    (LogManager.ctor Level.DEBUG).WF ∧
    (LogManager.ctor Level.DEBUG).getLogger Config.alphabet Level.DEBUG "App.Worker" =
      (Except.ok 1, ((LogManager.ctor Level.DEBUG).getLogger Config.alphabet Level.DEBUG
        "App.Worker").2) ∧
    (Config.empty : Config Nat String).lookup 0 "app.worker" "a" "" =
      (Except.ok (some 0), ((Config.empty : Config Nat String).lookup 0 "app.worker" "a" "").2) ∧
    ((((LogManager.ctor Level.DEBUG).getLogger Config.alphabet Level.DEBUG
          "App.Worker").2.setLevel 1 Level.ERROR).getLevel 1 = some Level.ERROR) ∧
    ((((Config.empty : Config Nat String).lookup 0 "app.worker" "a" "").2.setValue 0
        "c").getValue 0 = some "c") :=
  have hw := registry_lookup_idempotent Config.alphabet Level.DEBUG
    (LogManager.ctor Level.DEBUG)
    ((LogManager.ctor Level.DEBUG).getLogger Config.alphabet Level.DEBUG "App.Worker").2
    "App.Worker" 1 Level.ERROR
    (Config.empty : Config Nat String)
    ((Config.empty : Config Nat String).lookup 0 "app.worker" "a" "").2
    0 "app.worker" "a" "b" "" "other" 0 "c"
    (LogManager.wf_ctor Level.DEBUG) (by decide) (by decide)
  ⟨LogManager.wf_ctor Level.DEBUG, by decide, by decide, hw.1.2.1, hw.2.2.1⟩

/-! ### The registry after a sequence of lookups -/

theorem Config.reachable_step {Ty Val : Type} [DecidableEq Ty] (st : Config Ty Val)
    (call : Config.Call Ty Val) (h : Config.Reachable st) : Config.Reachable (st.step call) := by
  cases call with
  | create T name d desc => exact Config.Reachable.lookup st T name d desc h
  | find T name => exact h

theorem Config.reachable_run {Ty Val : Type} [DecidableEq Ty]
    (calls : List (Config.Call Ty Val)) (st : Config Ty Val) (h : Config.Reachable st) :
    Config.Reachable (st.run calls) := by
  induction calls generalizing st with
  | nil => exact h
  | cons call rest ih => exact ih (st.step call) (Config.reachable_step st call h)

/-- C11: invariant of the `Config` registry. Starting from the empty store, after any sequence
of `Config::lookup` calls of either overload (calls that throw or return null included), every
registered key consists only of characters of `abcdefghijklmnopqrstuvwxyz._0123456789`, the
pointer stored under it points to an allocated variable whose `getName()` is the key, and the
lowercasing of the constructor leaves the key as it is. -/
theorem registry_keys_canonical {Ty Val : Type} [DecidableEq Ty]
    (calls : List (Config.Call Ty Val)) (k : String) (p : Ptr)
    (h : (k, p) ∈ ((Config.empty : Config Ty Val).run calls).s_data) :
    (∀ c ∈ k.data, c ∈ Config.alphabet.data) ∧
    ((Config.empty : Config Ty Val).run calls).getName p = some k ∧
    transform_tolower k = k ∧
    (ConfigVarBase.ctor k "").getName = k := by
  obtain ⟨h1, h2⟩ := Config.inv_of_reachable _
    (Config.reachable_run calls Config.empty Config.Reachable.start) (k, p) h
  have h3 := Config.transform_tolower_of_valid k h1
  exact ⟨h1, h2, h3, h3⟩

theorem registry_keys_canonical_witness :
    ("system.port", 0) ∈ ((Config.empty : Config Nat String).run
      [Config.Call.create 0 "system.port" "8080" "", Config.Call.create 0 "App.Worker" "x" "",
        Config.Call.find 1 "system.port", Config.Call.create 1 "system.port" "y" "",
        Config.Call.create 0 "a b" "z" ""]).s_data ∧
    ((Config.empty : Config Nat String).run
      [Config.Call.create 0 "system.port" "8080" "", Config.Call.create 0 "App.Worker" "x" "",
        Config.Call.find 1 "system.port", Config.Call.create 1 "system.port" "y" "",
        Config.Call.create 0 "a b" "z" ""]).getName 0 = some "system.port" :=
  ⟨by decide,
    (registry_keys_canonical
      [Config.Call.create 0 "system.port" "8080" "", Config.Call.create 0 "App.Worker" "x" "",
        Config.Call.find 1 "system.port", Config.Call.create 1 "system.port" "y" "",
        Config.Call.create 0 "a b" "z" ""] "system.port" 0 (by decide)).2.1⟩

/-! ### Parsing the value of a variable -/

/-- C12, as written, fails: a conversion that raises is not always answered with `false`. A
functor that throws an object of a type not derived from `std::exception` (here `throw 42`)
is not caught by the handler of config.h:329, and the exception reaches the caller. -/
theorem fromString_propagates_other_object :
    ¬ ∀ (FromStr : String → Except (Thrown Int) Bool) (x : ConfigVar Nat Bool) (s : String)
      (e : Thrown Int), FromStr s = Except.error e →
      (x.fromString FromStr s).1 = Except.ok false := by
  intro h
  have h1 := h (fun _ => Except.error (Thrown.other 42))
    (ConfigVar.ctor 0 "system.daemon" false "run in background") "yes" (Thrown.other 42) rfl
  revert h1
  decide

/-- C12, amended: `ConfigVar::fromString` is atomic and propagates no conversion error that is
a `std::exception`. For every text `s`: if the `FromStr` conversion of `s` succeeds with value
`v`, it returns `true` and `getValue()` afterwards is `v`; if the conversion throws an object
of a class derived from `std::exception`, it returns `false` and the variable is what it was,
so `getValue()` is the same as before the call; an object of another type thrown by the
conversion reaches the caller, the variable again what it was; name and description (and the
type tag) are unchanged in every case. -/
theorem fromString_atomic {Ty Val Obj : Type} (FromStr : String → Except (Thrown Obj) Val)
    (x : ConfigVar Ty Val) (s : String) :
    (∀ v, FromStr s = Except.ok v →
      (x.fromString FromStr s).1 = Except.ok true ∧
      (x.fromString FromStr s).2.getValue = v) ∧
    (∀ what, FromStr s = Except.error (Thrown.std_exception what) →
      (x.fromString FromStr s).1 = Except.ok false ∧
      (x.fromString FromStr s).2.getValue = x.getValue ∧
      (x.fromString FromStr s).2 = x) ∧
    (∀ obj, FromStr s = Except.error (Thrown.other obj) →
      (x.fromString FromStr s).1 = Except.error (Thrown.other obj) ∧
      (x.fromString FromStr s).2.getValue = x.getValue ∧
      (x.fromString FromStr s).2 = x) ∧
    (x.fromString FromStr s).2.getName = x.getName ∧
    (x.fromString FromStr s).2.getDescription = x.getDescription ∧
    (x.fromString FromStr s).2.T = x.T := by
  unfold ConfigVar.fromString
  cases hconv : FromStr s with
  | ok v =>
    refine ⟨?_, ?_, ?_, rfl, rfl, rfl⟩
    · intro v1 hv1
      cases hv1
      exact ⟨rfl, rfl⟩
    · intro what he
      cases he
    · intro obj he
      cases he
  | error e =>
    cases e with
    | std_exception what =>
      refine ⟨?_, ?_, ?_, rfl, rfl, rfl⟩
      · intro v hv
        cases hv
      · intro what1 _
        exact ⟨rfl, rfl, rfl⟩
      · intro obj he
        cases he
    | other obj =>
      refine ⟨?_, ?_, ?_, rfl, rfl, rfl⟩
      · intro v hv
        cases hv
      · intro what he
        cases he
      · intro obj1 he
        cases he
        exact ⟨rfl, rfl, rfl⟩

theorem fromString_atomic_witness :
    ((ConfigVar.ctor 0 "system.daemon" false "run in background" : ConfigVar Nat Bool).fromString
        (fun t => if t = "1" then Except.ok true else if t = "0" then Except.ok false
          else Except.error (Thrown.std_exception "bad lexical cast" : Thrown Int))
        "1").2.getValue = true ∧
    ((ConfigVar.ctor 0 "system.daemon" false "run in background" : ConfigVar Nat Bool).fromString
        (fun t => if t = "1" then Except.ok true else if t = "0" then Except.ok false
          else Except.error (Thrown.std_exception "bad lexical cast" : Thrown Int))
        "yes").1 = Except.ok false :=
  ⟨((fromString_atomic
      (fun t => if t = "1" then Except.ok true else if t = "0" then Except.ok false
        else Except.error (Thrown.std_exception "bad lexical cast" : Thrown Int))
      (ConfigVar.ctor 0 "system.daemon" false "run in background" : ConfigVar Nat Bool)
      "1").1 true (by decide)).2,
    ((fromString_atomic
      (fun t => if t = "1" then Except.ok true else if t = "0" then Except.ok false
        else Except.error (Thrown.std_exception "bad lexical cast" : Thrown Int))
      (ConfigVar.ctor 0 "system.daemon" false "run in background" : ConfigVar Nat Bool)
      "yes").2.1 "bad lexical cast" (by decide)).1⟩

end mocker
